import Mathlib

/-!
Verification of the transfercoder repository (package `transfercoder`,
file `transfercoder/__init__.py`; the flat `transfercoder.py` is an older
revision of the same program).

Paths are modelled as lists of characters (`List Char`) where character-level
fidelity matters (`os.path.splitext`, `os.path.split`), and as `MPath`
(an absolute flag plus a list of path components) for the directory-level
functions (`os.path.join`, `os.path.relpath`, `is_subpath`, `find_dest`).
File contents are lists of byte values (`List Nat`); modification times are
integers (only their ordering is ever used); the SHA-256-derived digest of
`hashlib` is abstracted as a function parameter `hash : List Nat → String`.
-/

/-! ### Character-level model of `os.path` primitives (POSIX) -/

/-- Model of Python `str.rfind` restricted to single characters: the index of
the last occurrence of `ch` in the list, or `none` (Python returns -1). -/
def rfindIdx (ch : Char) : List Char → Option Nat
  | [] => none
  | c :: cs =>
    match rfindIdx ch cs with
    | some i => some (i + 1)
    | none => if c = ch then some 0 else none

/-- Python `rfind` returns -1 when the character is absent; comparisons in
`genericpath._splitext` are done on that convention. -/
def idxVal : Option Nat → Int
  | none => -1
  | some n => (n : Int)

/-- The scan in `genericpath._splitext` that skips leading dots of the base
name: the split at the final dot only happens if some character strictly
between the final path separator and the final dot is not a dot. -/
def existsNonDot (p : List Char) (si : Int) (di : Nat) : Bool :=
  (List.range di).any (fun i => decide (si < (i : Int)) && (p.getD i '.' != '.'))

/-- Model of POSIX `os.path.splitext` (`genericpath._splitext` with
`sep = '/'`, `extsep = '.'`): split at the last dot if it comes after the
last separator and the base name is not entirely dots. -/
def ospath_splitext (p : List Char) : List Char × List Char :=
  let si := idxVal (rfindIdx '/' p)
  match rfindIdx '.' p with
  | none => (p, [])
  | some di =>
    if decide (si < (di : Int)) && existsNonDot p si di then (p.take di, p.drop di)
    else (p, [])

/-- `splitext_afterdot` from `transfercoder/__init__.py` lines 65-71:
same as `os.path.splitext`, but the dot goes to the base. -/
def splitext_afterdot (p : List Char) : List Char × List Char :=
  let be := ospath_splitext p
  if 0 < be.2.length && (be.2.headD ' ' == '.') then (be.1 ++ ['.'], be.2.drop 1)
  else be

/-- String wrapper for `splitext_afterdot`, used where the source applies it
to whole path strings. -/
def splitext_afterdotStr (s : String) : String × String :=
  let be := splitext_afterdot s.data
  (⟨be.1⟩, ⟨be.2⟩)

/-- Python `str.rstrip('/')` on a character list. -/
def rstripSlash (l : List Char) : List Char :=
  (l.reverse.dropWhile (fun c => c == '/')).reverse

/-- Model of POSIX `os.path.split`: break at the final separator; the head
keeps its trailing slash only when it consists entirely of slashes. -/
def ospath_split (p : List Char) : List Char × List Char :=
  match rfindIdx '/' p with
  | none => ([], p)
  | some i =>
    let head := p.take (i + 1)
    let tail := p.drop (i + 1)
    (if head.all (fun c => c == '/') then head else rstripSlash head, tail)

/-- String wrapper for `ospath_split`. -/
def ospath_splitStr (s : String) : String × String :=
  let ht := ospath_split s.data
  (⟨ht.1⟩, ⟨ht.2⟩)

/-! ### Filesystem state and the `Transfercode` unit -/

/-- The filesystem facts consulted by the program: `os.path.exists`,
`os.path.isfile`, `os.path.isdir`, `open(..., 'rb').read()` (byte values),
`os.path.getmtime` (only the ordering of times matters, so `Int`), and the
result of `read_checksum_tag` (the `transfercoder_src_checksum` tag of a
file, or `none` when the tag is absent or unreadable). -/
structure FS where
  pathExists : String → Bool
  isfile : String → Bool
  isdir : String → Bool
  content : String → List Nat
  mtime : String → Int
  tag : String → Option String

/-- The `Transfercode` object (`__init__.py` lines 184-196): a source path,
a destination path, optional encoder options, and the checksum policy flag. -/
structure Transfercode where
  src : String
  dest : String
  eopts : Option String
  use_checksum : Bool
deriving DecidableEq, Repr

/-- `self.src_ext = splitext_afterdot(self.src)[1]` (line 190). -/
def Transfercode.src_ext (u : Transfercode) : String :=
  (splitext_afterdotStr u.src).2

/-- `self.dest_ext = splitext_afterdot(self.dest)[1]` (line 191). -/
def Transfercode.dest_ext (u : Transfercode) : String :=
  (splitext_afterdotStr u.dest).2

/-- `self.needs_transcode = self.src_ext != self.dest_ext` (line 196). -/
def Transfercode.needs_transcode (u : Transfercode) : Bool :=
  decide (u.src_ext ≠ u.dest_ext)

/-- `self.dest_dir = os.path.split(self.dest)[0]` (line 189). -/
def Transfercode.dest_dir (u : Transfercode) : String :=
  (ospath_splitStr u.dest).1

/-- Python's `"".encode('utf-8')` on the encoder-options string, modelled at
the codepoint level (injective, which is all the program relies on). -/
def encodeUtf8 (s : String) : List Nat :=
  s.data.map Char.toNat

/-- `Transfercode.source_checksum` (lines 206-214): hash the source file's
bytes followed by the encoder options (`self.eopts or ""`), where `hash`
abstracts `sha256(...).hexdigest()[:32]`. -/
def Transfercode.source_checksum (hash : List Nat → String) (fs : FS)
    (u : Transfercode) : String :=
  hash (fs.content u.src ++ encodeUtf8 (u.eopts.getD ""))

/-- `Transfercode.saved_checksum` (lines 216-225): read the checksum tag from
the destination; a failed read is cached as the empty string and the method
returns `self._saved_checksum or None`, so an empty tag also yields `none`. -/
def Transfercode.saved_checksum (fs : FS) (u : Transfercode) : Option String :=
  match fs.tag u.dest with
  | none => none
  | some s => if s = "" then none else some s

/-- `Transfercode.checksum_current` (lines 227-230):
`self.saved_checksum() is not None and self.saved_checksum() == self.source_checksum()`.
Despite the docstring ("Returns True, False, or None for no checksum"), this
expression is a plain boolean: it yields `False`, never `None`, when no
checksum is saved. -/
def Transfercode.checksum_current (hash : List Nat → String) (fs : FS)
    (u : Transfercode) : Bool :=
  (u.saved_checksum fs).isSome && (u.saved_checksum fs == some (u.source_checksum hash fs))

/-- The dynamic value bound to `current` in `needs_update` (line 263): the
result of `checksum_current()`, which in this revision is always a boolean,
wrapped in the `Option` that Python's `is None` test ranges over. -/
def Transfercode.checksum_current_py (hash : List Nat → String) (fs : FS)
    (u : Transfercode) : Option Bool :=
  some (u.checksum_current hash fs)

/-- `Transfercode.needs_update` (lines 238-288): destination missing → true;
transcodable file with checksum policy → branch on `current is None`
(modification-time fallback) versus `not current`; otherwise compare
modification times (`src_mtime > dest_mtime`). -/
def Transfercode.needs_update (hash : List Nat → String) (fs : FS)
    (u : Transfercode) : Bool :=
  if !(fs.pathExists u.dest) then true
  else if u.needs_transcode && u.use_checksum then
    match u.checksum_current_py hash fs with
    | none => decide (fs.mtime u.src > fs.mtime u.dest)
    | some current => !current
  else decide (fs.mtime u.src > fs.mtime u.dest)

/-! ### Effects of `transfer`, `transcode_to_tempdir` and `TransfercodeTemp` -/

/-- Python exception classes raised by the parts of the program we model. -/
inductive PyErr where
  | ioError
  | valueError
  | unboundLocalError
  | ffRuntimeError
  | oSError
deriving DecidableEq, Repr

/-- The observable filesystem/subprocess operations performed by `transfer`
and its callees, at the granularity the claims speak about. -/
inductive Act where
  | transcodeAct
  | copyAct
  | saveChecksumAct
  | removeSrcAct
deriving DecidableEq, Repr

/-- A run of a (possibly failing) imperative block: the actions it performed,
in order, and the exception it raised, if any. -/
structure Outcome where
  acts : List Act
  err : Option PyErr
deriving DecidableEq, Repr

/-- Pure result. -/
def Outcome.ret (a : List Act) : Outcome := ⟨a, none⟩

/-- Sequencing: if the first block raises, the second never runs. -/
def Outcome.andThen (o₁ o₂ : Outcome) : Outcome :=
  match o₁.err with
  | none => ⟨o₁.acts ++ o₂.acts, o₂.err⟩
  | some e => ⟨o₁.acts, some e⟩

/-- Success/failure oracles for the external operations inside `transcode()`
and `copy()` (ffmpeg, tag libraries, shutil): `none` means the operation
succeeds, `some e` means it raises `e`. -/
structure Oracles where
  transcodeErr : Option PyErr
  copyErr : Option PyErr
deriving DecidableEq, Repr

/-- `Transfercode.check` (lines 357-365): raises `IOError` when the source
file is missing or the destination directory does not exist. Performs no
filesystem mutation. -/
def Transfercode.checkOp (fs : FS) (u : Transfercode) : Outcome :=
  if !(fs.isfile u.src) then ⟨[], some PyErr.ioError⟩
  else if !(fs.isdir u.dest_dir) then ⟨[], some PyErr.ioError⟩
  else ⟨[], none⟩

/-- `Transfercode.transcode` (lines 290-330) viewed at action granularity:
a no-op under `dry_run`, otherwise one transcode action whose failure is
governed by the oracle. -/
def Transfercode.transcodeOp (or : Oracles) (dry_run : Bool) : Outcome :=
  if dry_run then Outcome.ret []
  else ⟨[Act.transcodeAct], or.transcodeErr⟩

/-- `Transfercode.copy` (lines 332-355) viewed at action granularity (its
internal rsync/fallback logic is modelled separately below). -/
def Transfercode.copyOp (or : Oracles) (dry_run : Bool) : Outcome :=
  if dry_run then Outcome.ret []
  else ⟨[Act.copyAct], or.copyErr⟩

/-- `Transfercode.save_checksum` (lines 232-236): writes the tag;
`write_checksum_tag` swallows its own exceptions, so this never raises. -/
def Transfercode.saveChecksumOp : Outcome :=
  ⟨[Act.saveChecksumAct], none⟩

/-- `Transfercode.transfer` (lines 367-396), modelled at
`transcode_tempdir=None` (the temp-staging path is modelled through
`transcode_to_tempdir` and `TransfercodeTemp.transfer` below): if `force` or
`needs_update()`, run `check()` (unless dry-run) then transcode or copy;
otherwise re-save the checksum tag when the destination's tag is not
current; otherwise do nothing. -/
def Transfercode.transfer (hash : List Nat → String) (fs : FS) (or : Oracles)
    (u : Transfercode) (force dry_run : Bool) : Outcome :=
  if force || u.needs_update hash fs then
    (if !dry_run then u.checkOp fs else Outcome.ret []).andThen
      (if u.needs_transcode then Transfercode.transcodeOp or dry_run
       else Transfercode.copyOp or dry_run)
  else if !dry_run && u.use_checksum && u.needs_transcode
      && !(u.checksum_current hash fs) then
    Transfercode.saveChecksumOp
  else Outcome.ret []

/-- `TransfercodeTemp.needs_update` (lines 435-436): always true. -/
def TransfercodeTemp.needs_update (_u : Transfercode) : Bool := true

/-- `TransfercodeTemp.transfer` (lines 427-429): run the inherited
`transfer` body — with `self.needs_update()` dynamically dispatched to the
always-true override, `checksum_current` inherited — and then
`os.remove(self.src)`. There is no `try`/`finally`: the removal only runs
when the inherited transfer returns normally. -/
def TransfercodeTemp.transfer (hash : List Nat → String) (fs : FS)
    (or : Oracles) (u : Transfercode) (force dry_run : Bool) : Outcome :=
  (if force || TransfercodeTemp.needs_update u then
    (if !dry_run then u.checkOp fs else Outcome.ret []).andThen
      (if u.needs_transcode then Transfercode.transcodeOp or dry_run
       else Transfercode.copyOp or dry_run)
   else if !dry_run && u.use_checksum && u.needs_transcode
       && !(u.checksum_current hash fs) then
     Transfercode.saveChecksumOp
   else Outcome.ret []).andThen ⟨[Act.removeSrcAct], none⟩

/-- A unit as dispatched on dynamically: either a plain `Transfercode` or a
`TransfercodeTemp` (lines 423-436). -/
inductive TCUnit where
  | plain (u : Transfercode)
  | temp (u : Transfercode)
deriving DecidableEq, Repr

/-- Dynamic dispatch of `needs_update` over the two classes. -/
def TCUnit.needs_update (hash : List Nat → String) (fs : FS) : TCUnit → Bool
  | TCUnit.plain u => u.needs_update hash fs
  | TCUnit.temp u => TransfercodeTemp.needs_update u

/-- The underlying record of either kind of unit. -/
def TCUnit.unit : TCUnit → Transfercode
  | TCUnit.plain u => u
  | TCUnit.temp u => u

/-- `Transfercode.transcode_to_tempdir` (lines 399-421): return `self` under
dry-run, for non-transcodable units, and when neither `force` nor
`needs_update()` holds; otherwise allocate a temp file named from the
destination's base name and extension (`alloc` abstracts
`tempfile.mkstemp`), transfer `Transfercode(src, temp, eopts, use_checksum)`
with `force=True`, and return `TransfercodeTemp(temp, dest, None, False)`.
First, the temp-file name of lines 417-419: `tempfile.mkstemp` (abstracted
as `alloc`) applied to the destination's base name plus `"_"` as prefix and
the destination's `os.path.splitext` extension as suffix. -/
def mkstempName (alloc : String → String → String) (dest : String) : String :=
  let tempname := (ospath_splitStr dest).2
  let tb := (⟨(ospath_splitext tempname.data).1⟩ : String)
  let te := (⟨(ospath_splitext tempname.data).2⟩ : String)
  alloc (tb ++ "_") te

/-- The body of `transcode_to_tempdir` (lines 399-421), see above. -/
def Transfercode.transcode_to_tempdir (hash : List Nat → String) (fs : FS)
    (or : Oracles) (alloc : String → String → String) (u : Transfercode)
    (force dry_run : Bool) : TCUnit × Outcome :=
  if dry_run then (TCUnit.plain u, Outcome.ret [])
  else if !u.needs_transcode then (TCUnit.plain u, Outcome.ret [])
  else if !(force || u.needs_update hash fs) then (TCUnit.plain u, Outcome.ret [])
  else
    let temp_filename := mkstempName alloc u.dest
    let staged : Transfercode := ⟨u.src, temp_filename, u.eopts, u.use_checksum⟩
    (TCUnit.temp ⟨temp_filename, u.dest, none, false⟩,
     staged.transfer hash fs or true false)

/-! ### The internals of `Transfercode.copy` (lines 332-355) -/

/-- The `rsync` argument of `copy`: Python allows a string, a boolean, or
`None`. -/
inductive RsyncPref where
  | pstr (s : String)
  | pbool (b : Bool)
  | pnone
deriving DecidableEq, Repr

/-- The outcome of the `call_silent([rsync, "-q", "-p", src, dest])`
invocation: an exit status, or an exception (e.g. the tool is missing). -/
inductive RsyncOutcome where
  | exit (n : Nat)
  | exc
deriving DecidableEq, Repr

/-- What `copy` did: whether the rsync subprocess was invoked, whether the
plain `shutil.copyfile` + `shutil.copymode` fallback ran, and whether, after
the call, the destination holds the source's bytes (true when the fallback
ran or when rsync exited 0). -/
structure CopyEffects where
  rsyncRan : Bool
  fallbackRan : Bool
  destHasSrcContent : Bool
deriving DecidableEq, Repr

/-- Lines 341-345: a boolean `rsync` argument is converted to `"rsync"` or
`None`; then `if rsync:` treats `None` and the empty string as falsy. -/
def resolveRsync : RsyncPref → Option String
  | RsyncPref.pbool true => some "rsync"
  | RsyncPref.pbool false => none
  | RsyncPref.pnone => none
  | RsyncPref.pstr s => if s = "" then none else some s

/-- `Transfercode.copy` (lines 332-355). The bug under test: line 348 binds
`retval = call_silent(...) == 0` (a boolean), and line 349 computes
`success = (retval == 0)`; in Python `True == 0` is `False` and
`False == 0` is `True`, so `success` is the *negation* of "rsync exited 0".
The fallback (lines 352-355) runs only when `success` is false. -/
def Transfercode.copyModel (_u : Transfercode) (rsync : RsyncPref)
    (outcome : RsyncOutcome) (dry_run : Bool) : CopyEffects :=
  if dry_run then ⟨false, false, false⟩
  else
    match resolveRsync rsync with
    | none => ⟨false, true, true⟩
    | some _ =>
      match outcome with
      | RsyncOutcome.exc => ⟨true, true, true⟩
      | RsyncOutcome.exit n =>
        let retval : Bool := n == 0
        let success : Bool := (if retval then (1 : Nat) else 0) == 0
        if success then ⟨true, false, n == 0⟩
        else ⟨true, true, true⟩

/-! ### `del_hidden` (lines 52-63) -/

/-- `paths[i][0] == "."` for the non-empty strings the claim ranges over. -/
def headIsDot (s : String) : Bool :=
  s.data.headD ' ' == '.'

/-- Python `del paths[i]`. -/
def delIdx {α : Type} (l : List α) (i : Nat) : List α :=
  l.take i ++ l.drop (i + 1)

/-- The loop of `del_hidden`: the generator walks indices from
`len(paths)-1` down to `0`, testing the *current* list at each index and
deleting the entry when it starts with a dot (deletions at higher indices
never shift lower ones). -/
def del_hidden_go : List String → Nat → List String
  | paths, 0 => paths
  | paths, i + 1 =>
    del_hidden_go (if headIsDot (paths.getD i "") then delIdx paths i else paths) i

/-- `del_hidden` (lines 52-63), as the value of the list after the in-place
mutation. -/
def del_hidden (paths : List String) : List String :=
  del_hidden_go paths paths.length

/-! ### Path components, `is_subpath`, `DestinationFinder.find_dest` -/

/-- Directory-level model of a POSIX path: an absolute flag plus the list of
path components. -/
structure MPath where
  abs : Bool
  comps : List String
deriving DecidableEq, Repr

/-- Well-formedness of a component list as produced by `os.path.realpath` /
`os.walk`: components are non-empty, contain no separator, and are not the
special entries that `os.path` normalization would fold away. -/
def normComps (l : List String) : Bool :=
  l.all (fun c => c ≠ "" && c ≠ "." && c ≠ ".." && !(c.data.contains '/'))

/-- `os.path.join(a, b)`: an absolute right operand discards the left. -/
def ospath_join (a b : MPath) : MPath :=
  if b.abs then b else ⟨a.abs, a.comps ++ b.comps⟩

/-- Length of the common component prefix, as computed by
`posixpath.relpath` via `os.path.commonprefix` on the split lists. -/
def commonPrefixLen : List String → List String → Nat
  | a :: as_, b :: bs => if a = b then commonPrefixLen as_ bs + 1 else 0
  | _, _ => 0

/-- `os.path.relpath(path, parent)` for absolute inputs: climb out of the
uncommon part of `parent` with `..` entries, then descend into the uncommon
part of `path`; the empty result is the current-directory marker. -/
def relpathComps (path parent : List String) : List String :=
  let k := commonPrefixLen path parent
  let r := List.replicate (parent.length - k) ".." ++ path.drop k
  if r = [] then ["."] else r

/-- `is_subpath` (lines 438-447):
`not os.path.relpath(path, parent)[0:2].startswith(os.path.pardir)` — a
textual test on the first two characters of the relative path. -/
def is_subpath (path parent : MPath) : Bool :=
  match relpathComps path.comps parent.comps with
  | [] => true
  | c :: _ => !(decide ((c.take 2) = ".."))

/-- `DestinationFinder` (lines 464-473): canonicalized roots, the transcode
extension list, the target extension, and the hidden-files flag. -/
structure DestinationFinder where
  src_dir : MPath
  dest_dir : MPath
  src_exts : List String
  dest_ext : String
  include_hidden : Bool

/-- `splitext_afterdot` applied to a relative path given by components: the
split happens inside the last component (the dot search of
`os.path.splitext` never crosses the last separator). -/
def splitextComps (comps : List String) : List String × String :=
  match comps.getLast? with
  | none => ([], "")
  | some lastc =>
    let be := splitext_afterdotStr lastc
    (comps.dropLast ++ [be.1], be.2)

/-- `DestinationFinder.find_dest` (lines 475-491). For an absolute source:
reject paths outside `src_dir` with `ValueError`, make the path relative,
split off the extension, swap in `dest_ext` when the extension is in
`src_exts`, and join onto `dest_dir`. For a non-absolute source the
assignment `base, ext = splitext_afterdot(src)` sits inside the
`os.path.isabs` branch, so line 487 reads the unassigned local `ext` and
raises `UnboundLocalError`. -/
def DestinationFinder.find_dest (df : DestinationFinder) (src : MPath) :
    Except PyErr MPath :=
  if src.abs then
    if !(is_subpath src df.src_dir) then Except.error PyErr.valueError
    else
      let src' := relpathComps src.comps df.src_dir.comps
      let be := splitextComps src'
      if be.2 ∈ df.src_exts then
        Except.ok (ospath_join df.dest_dir ⟨false, be.1.dropLast ++ [(be.1.getLastD "") ++ df.dest_ext]⟩)
      else
        Except.ok (ospath_join df.dest_dir ⟨false, src'⟩)
  else Except.error PyErr.unboundLocalError

/-! ### Concrete hash functions used by witnesses and counterexamples -/

/-- Prefix-free unary code: `n` is encoded as `n` copies of `a` followed by
one `b`; injective by construction. -/
def unaryEncode : List Nat → List Char
  | [] => []
  | n :: rest => List.replicate n 'a' ++ 'b' :: unaryEncode rest

/-- An injective stand-in for the (collision-free idealization of the)
SHA-256-derived digest, used to instantiate witnesses. -/
def unaryHash (l : List Nat) : String := ⟨unaryEncode l⟩

/-- A simple computable digest for closed counterexamples where injectivity
is irrelevant. -/
def demoHash (l : List Nat) : String :=
  (l.map Nat.repr).foldl (fun a b => a ++ b) ""

/-! ### Concrete fixtures used by witnesses, counterexamples and
failing-input evaluations -/

/-- A unit whose destination exists but carries no checksum tag, and whose
destination is newer than its source. -/
def uC1 : Transfercode := ⟨"src/a.flac", "dest/a.ogg", none, true⟩

/-- Filesystem for `uC1`: `dest/a.ogg` exists with no checksum tag and a
modification time later than the source's. -/
def fsC1 : FS :=
  ⟨fun p => p == "dest/a.ogg", fun _ => true, fun _ => true,
   fun _ => [7], fun p => if p == "src/a.flac" then 1 else 2, fun _ => none⟩

/-- Oracles under which every external operation succeeds. -/
def orOk : Oracles := ⟨none, none⟩

/-- A temp-staged unit whose copy step will raise. -/
def uC3 : Transfercode := ⟨"tmp/a_x.ogg", "dest/a.ogg", none, false⟩

/-- Filesystem for `uC3`: source file and destination directory both
present. -/
def fsC3 : FS :=
  ⟨fun _ => true, fun _ => true, fun _ => true, fun _ => [], fun _ => 0,
   fun _ => none⟩

/-- Oracles under which the copy step raises `OSError`. -/
def orC3 : Oracles := ⟨none, some PyErr.oSError⟩

/-! #### Specification lemmas for `rfindIdx` -/

theorem rfindIdx_none (ch : Char) (l : List Char) (h : rfindIdx ch l = none) :
    ∀ k, l.get? k ≠ some ch := by
  induction l with
  | nil => intro k; simp
  | cons c cs ih =>
    intro k
    unfold rfindIdx at h
    cases hcs : rfindIdx ch cs with
    | some i => rw [hcs] at h; exact absurd h (by simp)
    | none =>
      rw [hcs] at h
      by_cases hc : c = ch
      · simp [hc] at h
      · cases k with
        | zero => simpa using fun he => hc he
        | succ k => simpa using ih hcs k

theorem rfindIdx_some (ch : Char) (l : List Char) (i : Nat)
    (h : rfindIdx ch l = some i) :
    l.get? i = some ch ∧ ∀ j, i < j → l.get? j ≠ some ch := by
  induction l generalizing i with
  | nil => simp [rfindIdx] at h
  | cons c cs ih =>
    unfold rfindIdx at h
    cases hcs : rfindIdx ch cs with
    | some k =>
      rw [hcs] at h
      have hik : i = k + 1 := by simpa using h.symm
      subst hik
      obtain ⟨h1, h2⟩ := ih k hcs
      refine ⟨by simpa using h1, ?_⟩
      intro j hj
      cases j with
      | zero => omega
      | succ j => simpa using h2 j (by omega)
    | none =>
      rw [hcs] at h
      by_cases hc : c = ch
      · simp [hc] at h
        subst h
        refine ⟨by simpa using hc, ?_⟩
        intro j hj
        cases j with
        | zero => omega
        | succ j => simpa using rfindIdx_none ch cs hcs j
      · simp [hc] at h

/-! #### Structure of `ospath_splitext` and `splitext_afterdot` -/

theorem ospath_splitext_shape (p : List Char) :
    ospath_splitext p = (p, []) ∨
      ∃ di, rfindIdx '.' p = some di ∧
        ospath_splitext p = (p.take di, p.drop di) := by
  unfold ospath_splitext
  cases h : rfindIdx '.' p with
  | none => exact Or.inl rfl
  | some di =>
    by_cases hc :
        (decide (idxVal (rfindIdx '/' p) < (di : Int)) && existsNonDot p (idxVal (rfindIdx '/' p)) di) = true
    · exact Or.inr ⟨di, rfl, by simp [hc]⟩
    · exact Or.inl (by simp [hc])

theorem ospath_splitext_append (p : List Char) :
    (ospath_splitext p).1 ++ (ospath_splitext p).2 = p := by
  rcases ospath_splitext_shape p with h | ⟨di, _, h⟩ <;> simp [h]

theorem drop_at_last_dot (p : List Char) (di : Nat)
    (h : rfindIdx '.' p = some di) :
    p.drop di = '.' :: p.drop (di + 1) ∧
      (p.drop (di + 1)).take 1 ≠ ['.'] := by
  obtain ⟨h1, h2⟩ := rfindIdx_some '.' p di h
  have hlt : di < p.length := by
    by_contra hge
    rw [List.get?_eq_none.2 (by omega)] at h1
    exact absurd h1 (by simp)
  constructor
  · have := List.drop_eq_getElem_cons hlt
    rw [this]
    have : p[di] = '.' := by
      have := List.get?_eq_getElem? p di
      rw [this, List.getElem?_eq_getElem hlt] at h1
      simpa using h1
    rw [this]
  · cases hd : p.drop (di + 1) with
    | nil => simp
    | cons c rest =>
      intro hcontra
      simp [hd] at hcontra
      have hget : p.get? (di + 1) = some c := by
        have : (p.drop (di + 1)).get? 0 = some c := by simp [hd]
        rwa [List.get?_eq_getElem?, List.getElem?_drop, ← List.get?_eq_getElem?] at this
      exact h2 (di + 1) (by omega) (by rw [hget, hcontra])

/-- C9: for every path string `p`, `splitext_afterdot(p)` returns a pair
`(base, ext)` with `base ++ ext = p`, and `ext` never begins with a dot
(the dot, when present, stays at the end of `base`). -/
theorem claim_C9_splitext_afterdot_partition (p : List Char) :
    (splitext_afterdot p).1 ++ (splitext_afterdot p).2 = p ∧
      ((splitext_afterdot p).2).take 1 ≠ ['.'] := by
  unfold splitext_afterdot
  rcases ospath_splitext_shape p with h | ⟨di, hdi, h⟩
  · rw [h]
    simp
  · obtain ⟨hdrop, htake⟩ := drop_at_last_dot p di hdi
    rw [h, hdrop]
    simp only [List.length_cons, List.headD_cons]
    constructor
    · simpa using congrArg (fun l => p.take di ++ l) hdrop.symm |>.trans
        (List.take_append_drop di p)
    · simpa using htake

/-! #### `del_hidden` removes exactly the dot-initial entries -/

theorem delIdx_take_drop {α : Type} (l : List α) (i : Nat) (h : i < l.length) :
    (delIdx l i).take i = l.take i ∧ (delIdx l i).drop i = l.drop (i + 1) := by
  have hlen : (l.take i).length = i := by simp; omega
  constructor
  · rw [delIdx, List.take_append_of_le_length (by omega), List.take_take]
    simp
  · have hdl := List.drop_left (l.take i) (l.drop (i + 1))
    rw [hlen] at hdl
    rw [delIdx]
    exact hdl

theorem delIdx_length {α : Type} (l : List α) (i : Nat) (h : i < l.length) :
    (delIdx l i).length = l.length - 1 := by
  simp [delIdx]
  omega

theorem del_hidden_go_spec (i : Nat) :
    ∀ paths : List String, i ≤ paths.length →
      del_hidden_go paths i =
        (paths.take i).filter (fun s => !headIsDot s) ++ paths.drop i := by
  induction i with
  | zero => intro paths _; simp [del_hidden_go]
  | succ i ih =>
    intro paths hle
    have hlt : i < paths.length := by omega
    have hx : paths.getD i "" = paths[i] := List.getD_eq_getElem paths "" hlt
    have htakesucc : paths.take (i + 1) = paths.take i ++ [paths[i]] := by
      rw [List.take_succ, List.getElem?_eq_getElem hlt]
      rfl
    have hdropcons : paths.drop i = paths[i] :: paths.drop (i + 1) :=
      List.drop_eq_getElem_cons hlt
    rw [del_hidden_go]
    by_cases hdot : headIsDot (paths.getD i "") = true
    · rw [if_pos hdot]
      obtain ⟨ht, hd⟩ := delIdx_take_drop paths i hlt
      have hlen' : i ≤ (delIdx paths i).length := by
        rw [delIdx_length paths i hlt]; omega
      rw [ih (delIdx paths i) hlen', ht, hd, htakesucc, List.filter_append]
      rw [hx] at hdot
      simp [hdot]
    · rw [if_neg hdot]
      rw [ih paths (by omega), htakesucc, List.filter_append, hdropcons]
      rw [hx] at hdot
      simp [hdot]

/-- C10: on a list of non-empty strings, `del_hidden` leaves exactly the
original elements that do not begin with a dot, in their original order
(the in-place mutation is modelled as the list's final value). -/
theorem claim_C10_del_hidden_filters (paths : List String)
    (_hne : ∀ s ∈ paths, s ≠ "") :
    del_hidden paths = paths.filter (fun s => !headIsDot s) := by
  have := del_hidden_go_spec paths.length paths le_rfl
  simpa [del_hidden] using this

/-- C10 witness: a concrete run of `del_hidden`. -/
theorem claim_C10_del_hidden_filters_witness :
    del_hidden [".a", "b", ".c", "d"] = ["b", "d"] := by
  rw [claim_C10_del_hidden_filters [".a", "b", ".c", "d"] (by decide)]
  decide

/-! #### C1 and C6: the missing-tag modification-time fallback is dead code
in this revision -/

theorem uC1_checksum_never_current (hash : List Nat → String) :
    uC1.checksum_current hash fsC1 = false := by
  simp [Transfercode.checksum_current, Transfercode.saved_checksum, fsC1, uC1]

theorem uC1_needs_update (hash : List Nat → String) :
    uC1.needs_update hash fsC1 = true := by
  have hcc := uC1_checksum_never_current hash
  simp [Transfercode.needs_update, Transfercode.checksum_current_py, hcc,
    show fsC1.pathExists uC1.dest = true by decide,
    show uC1.needs_transcode = true by decide,
    show uC1.use_checksum = true from rfl]

/-- C1: at a destination that exists, needs transcoding under the checksum
policy, carries no saved checksum tag, and is strictly newer than its
source, `needs_update()` nevertheless returns true for every hash function:
`checksum_current()` returns `False` (not `None`) for a missing tag, so the
claimed modification-time fallback never runs and a newer destination is
still judged stale. -/
theorem claim_C1_no_tag_skips_mtime_fallback (hash : List Nat → String) :
    fsC1.tag uC1.dest = none ∧
      fsC1.pathExists uC1.dest = true ∧
      uC1.needs_transcode = true ∧
      uC1.use_checksum = true ∧
      fsC1.mtime uC1.src < fsC1.mtime uC1.dest ∧
      uC1.needs_update hash fsC1 = true :=
  ⟨rfl, by decide, by decide, rfl, by decide, uC1_needs_update hash⟩

/-- C6: at the same destination — existing, transcodable, checksum policy
on, tag missing, destination newer — `transfer()` with `force=False` and no
dry-run performs a full transcode (`needs_update()` is true, because the
missing tag makes `checksum_current()` false) instead of the claimed cheap
re-save of the checksum tag; the tag-repair branch of `transfer` is
unreachable in this revision. -/
theorem claim_C6_tag_repair_branch_unreachable (hash : List Nat → String) :
    fsC1.tag uC1.dest = none ∧
      fsC1.mtime uC1.src < fsC1.mtime uC1.dest ∧
      Transfercode.transfer hash fsC1 orOk uC1 false false
        = ⟨[Act.transcodeAct], none⟩ := by
  refine ⟨rfl, by decide, ?_⟩
  have hnu := uC1_needs_update hash
  simp [Transfercode.transfer, hnu, Transfercode.checkOp, Outcome.andThen,
    Transfercode.transcodeOp, Outcome.ret, orOk,
    show uC1.needs_transcode = true by decide,
    show fsC1.isfile uC1.src = true from rfl,
    show fsC1.isdir uC1.dest_dir = true from rfl]

/-! #### C2: the inverted `success` flag in `copy` -/

/-- A unit for exercising `copy`. -/
def uC2 : Transfercode := ⟨"src/a.mp3", "dest/a.mp3", none, true⟩

/-- C2: when the rsync invocation exits with a non-zero status, `copy`
computes `retval = (exit == 0) = False` and then `success = (retval == 0)`,
which in Python is `True`; so the plain-copy fallback is skipped and the
destination is left without the source's content — while an invocation
exception does reach the fallback. The claim fails on the non-zero-exit
case. -/
theorem claim_C2_nonzero_exit_skips_fallback :
    Transfercode.copyModel uC2 (RsyncPref.pstr "rsync") (RsyncOutcome.exit 23) false
        = ⟨true, false, false⟩ ∧
      Transfercode.copyModel uC2 (RsyncPref.pstr "rsync") RsyncOutcome.exc false
        = ⟨true, true, true⟩ := by decide

/-! #### C3: the temp file is removed only on success -/

/-- C3 counterexample: a temp-staged transfer whose copy step raises leaves
the temporary source file in place — `os.remove` is never reached, refuting
deletion "exactly once … when it raises an exception". -/
theorem claim_C3_counterexample_no_delete_on_exception :
    (TransfercodeTemp.transfer demoHash fsC3 orC3 uC3 false false).err
        = some PyErr.oSError ∧
      (TransfercodeTemp.transfer demoHash fsC3 orC3 uC3 false false).acts.count
          Act.removeSrcAct = 0 := by decide

theorem andThen_remove_once (o : Outcome)
    (h : o.acts.count Act.removeSrcAct = 0) :
    (o.andThen ⟨[Act.removeSrcAct], none⟩).acts.count Act.removeSrcAct
        = if (o.andThen ⟨[Act.removeSrcAct], none⟩).err = none then 1 else 0 := by
  cases he : o.err with
  | none => simp [Outcome.andThen, he, h]
  | some e => simp [Outcome.andThen, he, h]

/-- C3 (amended): the temp source file is deleted exactly once when the
wrapped transfer step completes without raising, and is not deleted at all
when that step raises. -/
theorem claim_C3_temp_deleted_iff_success (hash : List Nat → String) (fs : FS)
    (or : Oracles) (u : Transfercode) (force dry_run : Bool) :
    (TransfercodeTemp.transfer hash fs or u force dry_run).acts.count
        Act.removeSrcAct
      = if (TransfercodeTemp.transfer hash fs or u force dry_run).err = none
        then 1 else 0 := by
  unfold TransfercodeTemp.transfer
  apply andThen_remove_once
  unfold TransfercodeTemp.needs_update
  simp only [Bool.or_true, if_true]
  rcases dry_run <;> rcases u.needs_transcode <;>
    simp [Transfercode.checkOp, Transfercode.transcodeOp, Transfercode.copyOp,
      Outcome.ret, Outcome.andThen] <;>
    split_ifs <;> simp

/-! #### C7: `transcode_to_tempdir` stages through a checksum-free temp
unit -/

/-- A deterministic stand-in for `tempfile.mkstemp`'s name generation. -/
def demoAlloc (p s : String) : String := p ++ "1234" ++ s

/-- C7: `transcode_to_tempdir` returns the unit itself when dry-run, when
the unit does not need transcoding, or when neither `force` nor
`needs_update()` holds; otherwise it returns a `TransfercodeTemp` whose
source is the freshly allocated temp file (named from the destination's
base name and extension), whose destination is the original destination,
whose checksum policy is disabled, and whose `needs_update()` is always
true. -/
theorem claim_C7_transcode_to_tempdir_staging (hash : List Nat → String)
    (fs : FS) (or : Oracles) (alloc : String → String → String)
    (u : Transfercode) (force dry_run : Bool) :
    ((dry_run = true ∨ u.needs_transcode = false ∨
        (force = false ∧ u.needs_update hash fs = false)) →
      (Transfercode.transcode_to_tempdir hash fs or alloc u force dry_run).1
        = TCUnit.plain u) ∧
    (dry_run = false → u.needs_transcode = true →
      (force = true ∨ u.needs_update hash fs = true) →
      ∃ v : Transfercode,
        (Transfercode.transcode_to_tempdir hash fs or alloc u force dry_run).1
            = TCUnit.temp v ∧
          v.src = mkstempName alloc u.dest ∧
          v.dest = u.dest ∧
          v.eopts = none ∧
          v.use_checksum = false ∧
          TCUnit.needs_update hash fs (TCUnit.temp v) = true) := by
  constructor
  · intro h
    unfold Transfercode.transcode_to_tempdir
    rcases h with h | h | ⟨h1, h2⟩
    · simp [h]
    · simp [h]
    · simp [h1, h2]
  · intro h1 h2 h3
    unfold Transfercode.transcode_to_tempdir
    have h4 : (force || u.needs_update hash fs) = true := by
      rcases h3 with h | h <;> simp [h]
    refine ⟨⟨mkstempName alloc u.dest, u.dest, none, false⟩, ?_⟩
    simp [h1, h2, h4, TCUnit.needs_update, TransfercodeTemp.needs_update]

/-- C7 witness: a forced, non-dry run of `transcode_to_tempdir` on a
transcodable unit yields the temp-staged unit with checksum policy off. -/
theorem claim_C7_transcode_to_tempdir_staging_witness :
    (Transfercode.transcode_to_tempdir demoHash fsC1 orOk demoAlloc uC1
        true false).1
      = TCUnit.temp ⟨mkstempName demoAlloc uC1.dest, uC1.dest, none, false⟩ := by
  obtain ⟨v, h1, h2, h3, h4, h5, _⟩ :=
    (claim_C7_transcode_to_tempdir_staging demoHash fsC1 orOk demoAlloc uC1
        true false).2 rfl (by decide) (Or.inl rfl)
  cases v
  simp only at h2 h3 h4 h5
  subst h2 h3 h4 h5
  exact h1

/-! #### C4: `find_dest` on a relative path reads an unassigned local -/

/-- A destination finder with `flac` as the only transcode-triggering
extension and `ogg` as the target extension. -/
def dfC4 : DestinationFinder :=
  ⟨⟨true, ["music"]⟩, ⟨true, ["dest"]⟩, ["flac"], "ogg", false⟩

/-- C4: for a non-absolute source path, `find_dest` raises
`UnboundLocalError` — the `base, ext = splitext_afterdot(src)` assignment
sits inside the `os.path.isabs(src)` branch, so line 487 reads `ext` before
assignment. The same path reached through the absolute branch maps with its
extension replaced, which the relative form never does. -/
theorem claim_C4_relative_path_raises_unbound_local :
    dfC4.find_dest ⟨false, ["albums", "song.flac"]⟩
        = Except.error PyErr.unboundLocalError ∧
      dfC4.find_dest ⟨true, ["music", "albums", "song.flac"]⟩
        = Except.ok ⟨true, ["dest", "albums", "song.ogg"]⟩ :=
  ⟨rfl, rfl⟩

/-! #### C8: absolute paths outside the source root are rejected; produced
destinations stay under the destination root -/

theorem commonPrefixLen_le (a b : List String) :
    commonPrefixLen a b ≤ b.length := by
  induction a generalizing b with
  | nil => cases b <;> simp [commonPrefixLen]
  | cons x xs ih =>
    cases b with
    | nil => simp [commonPrefixLen]
    | cons y ys =>
      unfold commonPrefixLen
      by_cases h : x = y
      · simpa [h] using ih ys
      · simp [h]

theorem isPrefixOf_iff_commonPrefixLen (a b : List String) :
    b.isPrefixOf a = true ↔ commonPrefixLen a b = b.length := by
  induction a generalizing b with
  | nil =>
    cases b with
    | nil => simp [List.isPrefixOf, commonPrefixLen]
    | cons y ys => simp [List.isPrefixOf, commonPrefixLen]
  | cons x xs ih =>
    cases b with
    | nil => simp [List.isPrefixOf, commonPrefixLen]
    | cons y ys =>
      unfold commonPrefixLen
      by_cases h : x = y
      · simp [List.isPrefixOf, h, ih ys]
      · rw [if_neg h]
        constructor
        · intro hc
          exfalso
          simp [List.isPrefixOf] at hc
          exact h hc.1.symm
        · intro hc
          exfalso
          simp only [List.length_cons] at hc
          omega

theorem isPrefixOf_append_self (l t : List String) :
    l.isPrefixOf (l ++ t) = true := by
  induction l with
  | nil => simp [List.isPrefixOf]
  | cons x xs ih => simp [List.isPrefixOf, ih]

/-- C8: for a well-formed absolute source path that is not a component-wise
sub-path of the source root, `find_dest` raises `ValueError`; and every
destination it does produce extends the destination root's components (and
inherits its absoluteness). -/
theorem claim_C8_find_dest_stays_under_dest_root (df : DestinationFinder)
    (src : MPath) (_h1 : normComps src.comps = true)
    (_h2 : normComps df.src_dir.comps = true)
    (_h3 : normComps df.dest_dir.comps = true) :
    (src.abs = true → df.src_dir.comps.isPrefixOf src.comps = false →
      df.find_dest src = Except.error PyErr.valueError) ∧
    (∀ d : MPath, df.find_dest src = Except.ok d →
      df.dest_dir.comps.isPrefixOf d.comps = true ∧ d.abs = df.dest_dir.abs) := by
  constructor
  · intro habs hpre
    have hk : commonPrefixLen src.comps df.src_dir.comps
        < df.src_dir.comps.length := by
      have hle := commonPrefixLen_le src.comps df.src_dir.comps
      have hne : commonPrefixLen src.comps df.src_dir.comps
          ≠ df.src_dir.comps.length := by
        intro hc
        rw [(isPrefixOf_iff_commonPrefixLen src.comps df.src_dir.comps).2 hc]
          at hpre
        exact absurd hpre (by simp)
      omega
    have hrep : ∃ rest, relpathComps src.comps df.src_dir.comps
        = ".." :: rest := by
      simp only [relpathComps]
      obtain ⟨n, hn⟩ : ∃ n, df.src_dir.comps.length
          - commonPrefixLen src.comps df.src_dir.comps = n + 1 :=
        ⟨df.src_dir.comps.length
            - commonPrefixLen src.comps df.src_dir.comps - 1, by omega⟩
      rw [hn, List.replicate_succ]
      refine ⟨List.replicate n ".."
          ++ src.comps.drop (commonPrefixLen src.comps df.src_dir.comps), ?_⟩
      simp
    have hsub : is_subpath src df.src_dir = false := by
      obtain ⟨rest, hr⟩ := hrep
      unfold is_subpath
      rw [hr]
      have htk : (("..").take 2) = ".." := by decide
      simp [htk]
    unfold DestinationFinder.find_dest
    simp [habs, hsub]
  · intro d hd
    unfold DestinationFinder.find_dest at hd
    by_cases habs : src.abs = true
    · rw [if_pos habs] at hd
      by_cases hsub : is_subpath src df.src_dir = true
      · rw [hsub] at hd
        simp only [Bool.not_true, Bool.false_eq_true, if_false] at hd
        split at hd <;>
        · rw [Except.ok.injEq] at hd
          subst hd
          simp [ospath_join, isPrefixOf_append_self]
      · rw [Bool.not_eq_true] at hsub
        rw [hsub] at hd
        simp at hd
    · rw [if_neg habs] at hd
      simp at hd

/-- C8 witness: a concrete absolute path outside the source root is
rejected with `ValueError`. -/
theorem claim_C8_find_dest_stays_under_dest_root_witness :
    DestinationFinder.find_dest ⟨⟨true, ["s"]⟩, ⟨true, ["d"]⟩, ["flac"], "ogg", false⟩
        ⟨true, ["x", "a.flac"]⟩ = Except.error PyErr.valueError :=
  (claim_C8_find_dest_stays_under_dest_root
      ⟨⟨true, ["s"]⟩, ⟨true, ["d"]⟩, ["flac"], "ogg", false⟩
      ⟨true, ["x", "a.flac"]⟩ (by decide) (by decide) (by decide)).1
    rfl (by decide)

/-! #### C5: the checksum detects changed bytes and changed encoder
options -/

theorem replicate_b_code_inj (n : Nat) :
    ∀ (m : Nat) (r s : List Char),
      List.replicate n 'a' ++ 'b' :: r = List.replicate m 'a' ++ 'b' :: s →
        n = m ∧ r = s := by
  induction n with
  | zero =>
    intro m r s h
    cases m with
    | zero => simpa using h
    | succ m =>
      rw [List.replicate_succ] at h
      simp at h
  | succ n ih =>
    intro m r s h
    cases m with
    | zero =>
      rw [List.replicate_succ] at h
      simp at h
    | succ m =>
      rw [List.replicate_succ, List.replicate_succ] at h
      simp only [List.cons_append, List.cons.injEq, true_and] at h
      obtain ⟨h1, h2⟩ := ih m r s h
      exact ⟨by omega, h2⟩

theorem unaryEncode_inj : Function.Injective unaryEncode := by
  intro l1
  induction l1 with
  | nil =>
    intro l2 h
    cases l2 with
    | nil => rfl
    | cons m s =>
      unfold unaryEncode at h
      have := congrArg List.length h
      simp at this
      omega
  | cons n r ih =>
    intro l2 h
    cases l2 with
    | nil =>
      unfold unaryEncode at h
      have := congrArg List.length h
      simp at this
    | cons m s =>
      unfold unaryEncode at h
      obtain ⟨h1, h2⟩ := replicate_b_code_inj n m _ _ h
      rw [h1, ih h2]

theorem unaryHash_inj : Function.Injective unaryHash := by
  intro a b h
  exact unaryEncode_inj (congrArg String.data h)

theorem encodeUtf8_inj : Function.Injective encodeUtf8 := by
  have hchar : Function.Injective Char.toNat :=
    Function.LeftInverse.injective Char.ofNat_toNat
  intro a b h
  unfold encodeUtf8 at h
  have hd : a.data = b.data := List.map_injective_iff.2 hchar h
  cases a
  cases b
  exact congrArg String.mk hd

/-- C5 (amended): with an idealized collision-free digest, for a unit whose
existing destination's tag equals its source checksum (so `needs_update()`
is false), a second unit over the same destination whose source bytes
differ (same effective encoder options) or whose *effective* encoder-option
string differs (same bytes) — where an absent `eopts` is equivalent to the
empty string, since the code hashes `self.eopts or ""` — has a source
checksum that no longer matches the saved tag, and its `needs_update()` is
true. -/
theorem claim_C5_checksum_detects_changes (hash : List Nat → String)
    (fs : FS) (u1 u2 : Transfercode) (hinj : Function.Injective hash)
    (hdest : u2.dest = u1.dest)
    (hu1c : u1.use_checksum = true) (hu2c : u2.use_checksum = true)
    (hnt1 : u1.needs_transcode = true) (hnt2 : u2.needs_transcode = true)
    (hex : fs.pathExists u1.dest = true)
    (htag : fs.tag u1.dest = some (u1.source_checksum hash fs))
    (hne : u1.source_checksum hash fs ≠ "")
    (hchange :
      (fs.content u2.src ≠ fs.content u1.src ∧
        u2.eopts.getD "" = u1.eopts.getD "") ∨
      (fs.content u2.src = fs.content u1.src ∧
        u2.eopts.getD "" ≠ u1.eopts.getD "")) :
    u1.needs_update hash fs = false ∧
      u2.source_checksum hash fs ≠ u1.source_checksum hash fs ∧
      u2.needs_update hash fs = true := by
  have hsaved1 : u1.saved_checksum fs = some (u1.source_checksum hash fs) := by
    unfold Transfercode.saved_checksum
    rw [htag]
    simp [hne]
  have hsaved2 : u2.saved_checksum fs = some (u1.source_checksum hash fs) := by
    unfold Transfercode.saved_checksum
    rw [hdest, htag]
    simp [hne]
  have hdiff : u2.source_checksum hash fs ≠ u1.source_checksum hash fs := by
    unfold Transfercode.source_checksum
    intro hc
    have harg := hinj hc
    rcases hchange with ⟨hcont, heopt⟩ | ⟨hcont, heopt⟩
    · rw [heopt] at harg
      exact hcont (List.append_cancel_right harg)
    · rw [hcont] at harg
      exact heopt (encodeUtf8_inj (List.append_cancel_left harg))
  have hcc1 : u1.checksum_current hash fs = true := by
    unfold Transfercode.checksum_current
    rw [hsaved1]
    simp
  have hcc2 : u2.checksum_current hash fs = false := by
    unfold Transfercode.checksum_current
    rw [hsaved2]
    simp [Ne.symm hdiff]
  refine ⟨?_, hdiff, ?_⟩
  · unfold Transfercode.needs_update Transfercode.checksum_current_py
    rw [hcc1]
    simp [hex, hnt1, hu1c]
  · unfold Transfercode.needs_update Transfercode.checksum_current_py
    rw [hcc2]
    simp [hdest, hex, hnt2, hu2c]

/-- Units and filesystem for the C5 counterexample: identical source bytes,
encoder options `None` versus the empty string. -/
def uC5a : Transfercode := ⟨"s.flac", "d.ogg", none, true⟩

/-- The same unit with empty-string (rather than absent) encoder options. -/
def uC5b : Transfercode := ⟨"s.flac", "d.ogg", some "", true⟩

/-- Filesystem where `d.ogg` exists and carries the tag
`demoHash([7] ++ "")` matching `uC5a`'s source checksum. -/
def fsC5c : FS :=
  ⟨fun p => p == "d.ogg", fun _ => true, fun _ => true, fun _ => [7],
   fun _ => 0, fun p => if p == "d.ogg" then some "7" else none⟩

/-- C5 counterexample: `encoder_options = None` and `encoder_options = ""`
are different encoder options, yet the code hashes `self.eopts or ""`, so
both units have the same source checksum over identical bytes and
`needs_update()` stays false — refuting the claim that any change of
`encoder_options` flips it to true. -/
theorem claim_C5_counterexample_none_vs_empty_eopts :
    uC5b.eopts ≠ uC5a.eopts ∧
      uC5a.needs_update demoHash fsC5c = false ∧
      uC5b.source_checksum demoHash fsC5c
        = uC5a.source_checksum demoHash fsC5c ∧
      uC5b.needs_update demoHash fsC5c = false := by decide

/-- Units and filesystem for the C5 witness: source bytes `[0]` versus
`[1]`, same absent encoder options, destination tagged with `uC5w1`'s
checksum under the injective unary hash. -/
def uC5w1 : Transfercode := ⟨"s1.flac", "d.ogg", none, true⟩

/-- The second witness unit, reading different source bytes. -/
def uC5w2 : Transfercode := ⟨"s2.flac", "d.ogg", none, true⟩

/-- Filesystem for the C5 witness: `unaryHash [0] = "b"` is the saved tag. -/
def fsC5w : FS :=
  ⟨fun p => p == "d.ogg", fun _ => true, fun _ => true,
   fun p => if p == "s1.flac" then [0] else [1], fun _ => 0,
   fun p => if p == "d.ogg" then some "b" else none⟩

/-- C5 witness: a concrete source-byte change flips `needs_update()` from
false to true under the injective unary hash. -/
theorem claim_C5_checksum_detects_changes_witness :
    uC5w1.needs_update unaryHash fsC5w = false ∧
      uC5w2.needs_update unaryHash fsC5w = true := by
  obtain ⟨h1, _, h3⟩ :=
    claim_C5_checksum_detects_changes unaryHash fsC5w uC5w1 uC5w2
      unaryHash_inj rfl rfl rfl (by decide) (by decide) (by decide)
      (by decide) (by decide) (Or.inl ⟨by decide, rfl⟩)
  exact ⟨h1, h3⟩
